import Mathlib

/-!
Shallow embedding of the core of the `vcp-screener` repository
(pattern detector / scorer, position sizing, stop maintenance, and the
backtest engine breakout / direct-entry / watchlist steps), together
with theorems settling the frozen claims about it.

Price series are embedded as `List ℚ`; the date of a bar is its integer
position in the series (the pandas date index is strictly increasing, so
positional order and date order agree).  Python `float` arithmetic is
modelled exactly over `ℚ`; `int(x)` is truncation toward zero.
-/

namespace VcpScreener

/-- Truncation toward zero, the semantics of Python `int(x)` on a number. -/
def ratTrunc (q : ℚ) : ℤ := if q < 0 then -(⌊-q⌋) else ⌊q⌋

/-- Mean of a list, `0` for the empty list (the detector returns `0` for an
empty volume window, `if mask.any() else 0`). -/
def listMean (l : List ℚ) : ℚ := if l.isEmpty then 0 else l.sum / l.length

/-- Maximum of a list (`Series.max`), `0` for the empty list. -/
def listMax : List ℚ → ℚ
  | [] => 0
  | x :: xs => xs.foldl max x

/-- Minimum of a list (`Series.min`), `0` for the empty list. -/
def listMin : List ℚ → ℚ
  | [] => 0
  | x :: xs => xs.foldl min x

/-- Position of the first occurrence of the maximum (`Series.idxmax`
translated to a position), `0` for the empty list. -/
def idxmaxPos (l : List ℚ) : ℕ :=
  (List.range l.length).foldl (fun best i => if l.getD best 0 < l.getD i 0 then i else best) 0

/-- The configuration fields of `config.Settings` that the embedded core
reads. -/
structure Settings where
  swingOrder : ℕ
  minBaseCorrectionPct : ℚ
  minContractions : ℕ
  maxContractions : ℕ
  breakoutVolumeMult : ℚ
  breakoutWatchlistExpiryDays : ℤ
  accountSize : ℚ
  riskPerTradePct : ℚ
  maxPositions : ℕ
  defaultStopLossPct : ℚ
  breakevenTriggerPct : ℚ
  trailingStopTriggerPct : ℚ
  trailingStopPct : ℚ
deriving DecidableEq

/-- The default values from `config.py` (`swing_order=5`,
`min_base_correction_pct=10`, `min_contractions=2`, `max_contractions=6`,
`breakout_volume_mult=1.3`, `breakout_watchlist_expiry_days=20`,
`account_size=100000`, `risk_per_trade_pct=2.5`, `max_positions=5`,
`default_stop_loss_pct=10`, `breakeven_trigger_pct=15`,
`trailing_stop_trigger_pct=30`, `trailing_stop_pct=12`). -/
def defaultSettings : Settings :=
  { swingOrder := 5
    minBaseCorrectionPct := 10
    minContractions := 2
    maxContractions := 6
    breakoutVolumeMult := 13 / 10
    breakoutWatchlistExpiryDays := 20
    accountSize := 100000
    riskPerTradePct := 5 / 2
    maxPositions := 5
    defaultStopLossPct := 10
    breakevenTriggerPct := 15
    trailingStopTriggerPct := 30
    trailingStopPct := 12 }

/-- Index access with the scipy clip boundary mode: an index past
the end reads the last element (numpy take in clip mode); a
negative offset was already clipped to `0` by `ℕ` subtraction. -/
def clipGetD (data : List ℚ) (i : ℕ) : ℚ := data.getD (min i (data.length - 1)) 0

/-- One point of `argrelextrema(data, np.greater_equal, order)`: the value
is `≥` every neighbour within `order` bars on both sides (clipped at the
boundaries). -/
def isSwingHigh (data : List ℚ) (order : ℕ) (i : ℕ) : Bool :=
  (List.range order).all fun s =>
    decide (clipGetD data (i + (s + 1)) ≤ data.getD i 0) &&
    decide (clipGetD data (i - (s + 1)) ≤ data.getD i 0)

/-- One point of `argrelextrema(data, np.less_equal, order)`. -/
def isSwingLow (data : List ℚ) (order : ℕ) (i : ℕ) : Bool :=
  (List.range order).all fun s =>
    decide (data.getD i 0 ≤ clipGetD data (i + (s + 1))) &&
    decide (data.getD i 0 ≤ clipGetD data (i - (s + 1)))

/-- Positions of swing highs (`find_swing_highs` reduced to the index list
of its non-NaN entries). -/
def swingHighIdx (data : List ℚ) (order : ℕ) : List ℕ :=
  (List.range data.length).filter (isSwingHigh data order)

/-- Positions of swing lows (`find_swing_lows` reduced to the index list of
its non-NaN entries). -/
def swingLowIdx (data : List ℚ) (order : ℕ) : List ℕ :=
  (List.range data.length).filter (isSwingLow data order)

/-- `vcp_detector.find_base_start`: position of the series-wide peak high,
provided at least 5 bars exist at or after it and the lowest close after it
is a decline of at least `min_correction_pct` percent from the peak. -/
def find_base_start (high close : List ℚ) (minCorrectionPct : ℚ) : Option ℕ :=
  let peakPos := idxmaxPos high
  let peakVal := high.getD peakPos 0
  let postPeakClose := close.drop peakPos
  if postPeakClose.length < 5 then none
  else
    let troughVal := listMin postPeakClose
    let correctionPct := (peakVal - troughVal) / peakVal * 100
    if minCorrectionPct ≤ correctionPct then some peakPos else none

/-- One contraction leg, `{high_date, high_val, low_date, low_val,
range_pct, avg_volume}`; dates are positions within the base sub-series. -/
structure Contraction where
  highDate : ℕ
  highVal : ℚ
  lowDate : ℕ
  lowVal : ℚ
  rangePct : ℚ
  avgVolume : ℚ
deriving DecidableEq, Inhabited

/-- Pair one swing high with the nearest swing low at or after it
(`detect_contractions` lines 106-127); `none` when no such swing low
exists (the `continue` branch). -/
def pairContraction (h l v : List ℚ) (slIdx : List ℕ) (i : ℕ) : Option Contraction :=
  match (slIdx.filter (fun j => decide (i ≤ j))).head? with
  | none => none
  | some j =>
    let shVal := h.getD i 0
    let slVal := l.getD j 0
    some { highDate := i
           highVal := shVal
           lowDate := j
           lowVal := slVal
           rangePct := (shVal - slVal) / shVal * 100
           avgVolume := listMean ((v.drop i).take (j - i + 1)) }

/-- All measured contractions, in swing-high (chronological) order. -/
def buildContractions (h l v : List ℚ) (shIdx slIdx : List ℕ) : List Contraction :=
  shIdx.filterMap (pairContraction h l v slIdx)

/-- The tail of the tightening walk (`detect_contractions` lines 133-141):
keep a strictly smaller range; on a violation stop if `min_contractions`
entries are already kept, otherwise keep the violating entry and continue.
`keptLen` is the number of entries kept so far. -/
def tightRest (minC keptLen : ℕ) (prev : Contraction) : List Contraction → List Contraction
  | [] => []
  | c :: rest =>
    if c.rangePct < prev.rangePct then c :: tightRest minC (keptLen + 1) c rest
    else if minC ≤ keptLen then []
    else c :: tightRest minC (keptLen + 1) c rest

/-- The tightening walk: the first contraction is always kept. -/
def tighteningFilter (minC : ℕ) : List Contraction → List Contraction
  | [] => []
  | c :: rest => c :: tightRest minC 1 c rest

/-- The `found:true` payload of `detect_contractions`. -/
structure VcpFound where
  contractions : List Contraction
  numContractions : ℕ
  pivotPrice : ℚ
  baseDepthPct : ℚ
  baseDurationDays : ℕ
  tightness : ℚ
  volumeDryUpPct : ℚ
  baseStartIdx : ℕ
deriving DecidableEq

/-- Result of `detect_contractions`: a structured rejection with a reason
string, or the found-pattern payload. -/
inductive DetectResult where
  | rejected (reason : String)
  | found (r : VcpFound)
deriving DecidableEq

/-- Final stage of `detect_contractions` (lines 129-178), from the measured
contraction list: minimum-count check, tightening walk, cap at
`max_contractions`, and the quality metrics of the kept list.
`h`/`l` are the base-restricted high/low series. -/
def contractionsStage (s : Settings) (cons : List Contraction) (baseStart : ℕ)
    (h l : List ℚ) : DetectResult :=
  if cons.length < s.minContractions then
    .rejected ("only " ++ toString cons.length ++ " contractions found")
  else
    let valid := tighteningFilter s.minContractions cons
    if valid.length < s.minContractions then .rejected ("contractions not tightening")
    else
      let valid2 := valid.take s.maxContractions
      .found
        { contractions := valid2
          numContractions := valid2.length
          pivotPrice := (valid2.getLastD default).highVal
          baseDepthPct := (listMax h - listMin l) / listMax h * 100
          baseDurationDays := h.length
          tightness :=
            if 0 < (valid2.headD default).rangePct then
              (valid2.getLastD default).rangePct / (valid2.headD default).rangePct
            else 1
          volumeDryUpPct :=
            if 0 < (valid2.headD default).avgVolume then
              (1 - (valid2.getLastD default).avgVolume / (valid2.headD default).avgVolume) * 100
            else 0
          baseStartIdx := baseStart }

/-- `vcp_detector.detect_contractions`.  The source also binds the
base-restricted close series but never reads it, so it is not bound here. -/
def detect_contractions (s : Settings) (high low close volume : List ℚ) : DetectResult :=
  if close.length < 50 then .rejected ("insufficient data")
  else
    match find_base_start high close s.minBaseCorrectionPct with
    | none => .rejected ("no base formation found")
    | some baseStart =>
      let h := high.drop baseStart
      let l := low.drop baseStart
      let v := volume.drop baseStart
      if h.length < 20 then .rejected ("base too short")
      else
        let shIdx := swingHighIdx h s.swingOrder
        let slIdx := swingLowIdx l s.swingOrder
        if shIdx.length < 2 ∨ slIdx.length < 2 then .rejected ("not enough swing points")
        else contractionsStage s (buildContractions h l v shIdx slIdx) baseStart h l

/-- The five measured inputs of `score_vcp` plus the `found` flag. -/
structure VcpMeasures where
  found : Bool
  numContractions : ℕ
  tightness : ℚ
  volumeDryUpPct : ℚ
  baseDurationDays : ℕ
  baseDepthPct : ℚ
deriving DecidableEq

/-- Contraction-count bucket of `score_vcp` (max 30). -/
def countScore (n : ℕ) : ℚ := if 4 ≤ n then 30 else if n = 3 then 25 else if n = 2 then 10 else 0

/-- Tightness bucket of `score_vcp` (max 25, lower is better). -/
def tightScore (t : ℚ) : ℚ :=
  if t ≤ 3 / 10 then 25 else if t ≤ 1 / 2 then 20 else if t ≤ 7 / 10 then 12 else 5

/-- Volume dry-up bucket of `score_vcp` (max 20, higher is better). -/
def volDryScore (w : ℚ) : ℚ := if 50 ≤ w then 20 else if 30 ≤ w then 15 else if 10 ≤ w then 8 else 3

/-- Base-duration bucket of `score_vcp` (max 15, 40-120 days ideal). -/
def durScore (d : ℕ) : ℚ :=
  if 40 ≤ d ∧ d ≤ 120 then 15 else if 25 ≤ d ∧ d ≤ 180 then 10 else 5

/-- Base-depth bucket of `score_vcp` (max 10, 15-35 percent ideal). -/
def depthScore (x : ℚ) : ℚ :=
  if 15 ≤ x ∧ x ≤ 35 then 10 else if 10 ≤ x ∧ x ≤ 50 then 6 else 2

/-- `vcp_detector.score_vcp`: `0` for an undetected pattern, otherwise the
five bucket accumulations capped at 100 (`min(score, 100.0)`). -/
def score_vcp (m : VcpMeasures) : ℚ :=
  if !m.found then 0
  else
    min (countScore m.numContractions + tightScore m.tightness + volDryScore m.volumeDryUpPct +
      durScore m.baseDurationDays + depthScore m.baseDepthPct) 100

/-- `portfolio_manager.calculate_position_size`:
`(account × risk%) / (entry − stop)` shares, `0` when the stop is not below
the entry or the count would be negative (`max(shares, 0)`). -/
def calculate_position_size (s : Settings) (entryPrice stopPrice accountSize : ℚ) : ℤ :=
  let riskAmount := accountSize * (s.riskPerTradePct / 100)
  let riskPerShare := entryPrice - stopPrice
  if riskPerShare ≤ 0 then 0
  else max (ratTrunc (riskAmount / riskPerShare)) 0

/-- A screening candidate / watchlist entry of the backtester:
`{symbol, close, vcp_score, rs_percentile, pivot_price, avg_volume}` plus
the `added_date` stamped when it joins the watchlist (0 before that).
Symbols are numbered, dates are integer day ordinals. -/
structure Candidate where
  symbol : ℕ
  close : ℚ
  vcpScore : ℚ
  rsPercentile : ℚ
  pivotPrice : ℚ
  avgVolume : ℚ
  addedDate : ℤ
deriving DecidableEq

/-- One OHLCV row of the frame of a symbol on a given day.  The source names the
first field `open`, a reserved word here. -/
structure DayBar where
  openPrice : ℚ
  high : ℚ
  low : ℚ
  close : ℚ
  volume : ℚ
deriving DecidableEq

/-- An open position of the backtest engine (the live `Position` model
carries the same fields). -/
structure BtPosition where
  symbol : ℕ
  entryDate : ℤ
  entryPrice : ℚ
  shares : ℤ
  stopLoss : ℚ
  trailingStop : Option ℚ
  highestPrice : ℚ
deriving DecidableEq

/-- The mutable state of `BacktestEngine` that the embedded steps touch:
cash, open positions, and the breakout watchlist. -/
structure EngineState where
  cash : ℚ
  positions : List BtPosition
  watchlist : List Candidate
deriving DecidableEq

/-- The share-count computation of
`BacktestEngine._enter_position_at_price` (lines 236-249): risk-based
sizing from current cash, rejection (`none`) when `risk_per_share ≤ 0` or
the count is `≤ 0`, and the clamp to `int(cash / entry_price)` when the
cost exceeds cash. -/
def btSizing (cash entryPrice stopPrice riskPerTradePct : ℚ) : Option ℤ :=
  let riskAmount := cash * (riskPerTradePct / 100)
  let riskPerShare := entryPrice - stopPrice
  if riskPerShare ≤ 0 then none
  else
    let shares := ratTrunc (riskAmount / riskPerShare)
    if shares ≤ 0 then none
    else
      let cost := entryPrice * (shares : ℚ)
      if cash < cost then
        let clamped := ratTrunc (cash / entryPrice)
        if clamped ≤ 0 then none else some clamped
      else some shares

/-- `BacktestEngine._enter_position_at_price`: derive the stop from the
configured stop-loss percent, size the position from current cash, and on
success charge the cost and append the new position; on rejection the state
is unchanged. -/
def enter_position_at_price (s : Settings) (st : EngineState) (c : Candidate)
    (entryPrice : ℚ) (entryDate : ℤ) : EngineState :=
  let stopPrice := entryPrice * (1 - s.defaultStopLossPct / 100)
  match btSizing st.cash entryPrice stopPrice s.riskPerTradePct with
  | none => st
  | some shares =>
    { st with
      cash := st.cash - entryPrice * (shares : ℚ)
      positions := st.positions ++
        [{ symbol := c.symbol
           entryDate := entryDate
           entryPrice := entryPrice
           shares := shares
           stopLoss := stopPrice
           trailingStop := none
           highestPrice := entryPrice }] }

/-- `BacktestEngine._close_position`: credit the proceeds and drop the
position (the closed-trades log is not modelled). -/
def close_position (st : EngineState) (p : BtPosition) (exitPrice : ℚ) : EngineState :=
  { st with
    cash := st.cash + exitPrice * (p.shares : ℚ)
    positions := st.positions.erase p }

/-- The per-position stop-maintenance update of
`BacktestEngine._check_stops` (lines 140-153): raise the recorded highest
price, then recompute the trailing stop — never lowering it. -/
def update_stops_bt (s : Settings) (pos : BtPosition) (currentPrice : ℚ) : BtPosition :=
  let pos1 := if pos.highestPrice < currentPrice then { pos with highestPrice := currentPrice } else pos
  let gainPct := (currentPrice / pos1.entryPrice - 1) * 100
  if s.trailingStopTriggerPct ≤ gainPct then
    let newTrail := pos1.highestPrice * (1 - s.trailingStopPct / 100)
    match pos1.trailingStop with
    | none => { pos1 with trailingStop := some newTrail }
    | some t => if t < newTrail then { pos1 with trailingStop := some newTrail } else pos1
  else if s.breakevenTriggerPct ≤ gainPct then
    match pos1.trailingStop with
    | none => { pos1 with trailingStop := some pos1.entryPrice }
    | some t => if t < pos1.entryPrice then { pos1 with trailingStop := some pos1.entryPrice } else pos1
  else pos1

/-- The per-position update of `portfolio_manager.update_trailing_stops`
(lines 125-142), applied to one open position at the latest close.  The
source duplicates the backtester rule rather than calling it, so it is
embedded separately. -/
def update_trailing_stops_step (s : Settings) (pos : BtPosition) (currentPrice : ℚ) : BtPosition :=
  let pos1 := if pos.highestPrice < currentPrice then { pos with highestPrice := currentPrice } else pos
  let gainPct := (currentPrice / pos1.entryPrice - 1) * 100
  if s.trailingStopTriggerPct ≤ gainPct then
    let newTrail := pos1.highestPrice * (1 - s.trailingStopPct / 100)
    match pos1.trailingStop with
    | none => { pos1 with trailingStop := some newTrail }
    | some t => if t < newTrail then { pos1 with trailingStop := some newTrail } else pos1
  else if s.breakevenTriggerPct ≤ gainPct then
    match pos1.trailingStop with
    | none => { pos1 with trailingStop := some pos1.entryPrice }
    | some t => if t < pos1.entryPrice then { pos1 with trailingStop := some pos1.entryPrice } else pos1
  else pos1

/-- The watchlist scan of `BacktestEngine._check_breakouts` (lines
198-220): collect, in watchlist order, the candidates that are not held,
have a bar today, and satisfy `close > pivot ∧ volume ≥ avg_volume × mult`,
recording the triggering close; stop as soon as
`len(positions) + len(triggered) ≥ max_positions`.  `bar` models the lookup
of the row of the current day, `npos` the open-position count and `t` the number already
triggered. -/
def collectTriggered (held : List ℕ) (bar : ℕ → Option DayBar) (mult : ℚ)
    (npos maxPos t : ℕ) : List Candidate → List (Candidate × ℚ)
  | [] => []
  | c :: rest =>
    if held.contains c.symbol then collectTriggered held bar mult npos maxPos t rest
    else
      match bar c.symbol with
      | none => collectTriggered held bar mult npos maxPos t rest
      | some b =>
        if c.pivotPrice < b.close ∧ c.avgVolume * mult ≤ b.volume then
          if maxPos ≤ npos + (t + 1) then [(c, b.close)]
          else (c, b.close) :: collectTriggered held bar mult npos maxPos (t + 1) rest
        else collectTriggered held bar mult npos maxPos t rest

/-- The entry loop of `BacktestEngine._check_breakouts` (lines 224-230):
enter each triggered candidate while below the position cap, removing it
from the watchlist (whether or not sizing opened a position). -/
def enterLoop (s : Settings) (maxPos : ℕ) (day : ℤ) :
    EngineState → List (Candidate × ℚ) → EngineState
  | st, [] => st
  | st, (c, price) :: rest =>
    if maxPos ≤ st.positions.length then st
    else
      let st1 := enter_position_at_price s st c price day
      enterLoop s maxPos day { st1 with watchlist := st1.watchlist.erase c } rest

/-- `BacktestEngine._check_breakouts`: no-op at the position cap, otherwise
collect the confirmed breakouts, order them by descending `vcp_score`
(a stable sort by descending score, as in Python, embedded as the stable `insertionSort`), and run the
entry loop. -/
def check_breakouts (s : Settings) (maxPos : ℕ) (bar : ℕ → Option DayBar) (day : ℤ)
    (st : EngineState) : EngineState :=
  if maxPos ≤ st.positions.length then st
  else
    let held := st.positions.map (fun p => p.symbol)
    let trig := collectTriggered held bar s.breakoutVolumeMult st.positions.length maxPos 0
      st.watchlist
    let sorted := trig.insertionSort (fun a b => (b.1).vcpScore ≤ (a.1).vcpScore)
    enterLoop s maxPos day st sorted

/-- `BacktestEngine._expire_watchlist`: keep an entry iff
`(current_date − added_date).days ≤ expiry`; the pandas `Timedelta.days`
of two day-stamped timestamps is their calendar-day difference. -/
def expire_watchlist (expiryDays currentDate : ℤ) (wl : List Candidate) : List Candidate :=
  wl.filter (fun c => decide (currentDate - c.addedDate ≤ expiryDays))

/-- Number of trading days strictly after `addedDate` and at most
`currentDate` in the trading calendar — the reading in the claim of days elapsed
on a watchlist entry, used to compare against the calendar-day
arithmetic. -/
def elapsedTradingDays (tradingDays : List ℤ) (addedDate currentDate : ℤ) : ℕ :=
  (tradingDays.filter (fun d => decide (addedDate < d) && decide (d ≤ currentDate))).length

/-- The entry price used by the direct-entry branch of
`param_sweep.run_single_backtest` (line 140): the open of the next trading day
when the symbol has a bar on that day, otherwise the last screened
close of the candidate. -/
def direct_entry_price (bar : ℕ → ℤ → Option DayBar) (nextDay : ℤ) (c : Candidate) : ℚ :=
  match bar c.symbol nextDay with
  | some b => b.openPrice
  | none => c.close

/-- The direct-entry branch of `param_sweep.run_single_backtest` (lines
133-140), run after a re-screen when breakout confirmation is off: buy the
first `max_pos − len(positions)` screened candidates that are not already
held, at `direct_entry_price`, dated the next trading day.  On the final
trading day nothing is bought.  `bar` models the per-symbol per-day row
lookup. -/
def direct_entry_step (s : Settings) (bar : ℕ → ℤ → Option DayBar) (tradingDays : List ℤ)
    (i : ℕ) (screenResults : List Candidate) (maxPos : ℕ) (st : EngineState) : EngineState :=
  if i + 1 < tradingDays.length then
    let nextDay := tradingDays.getD (i + 1) 0
    let held := st.positions.map (fun p => p.symbol)
    (screenResults.take (maxPos - st.positions.length)).foldl
      (fun acc c =>
        if held.contains c.symbol then acc
        else enter_position_at_price s acc c (direct_entry_price bar nextDay c) nextDay)
      st
  else st

/-- Number of adjacent pairs of a contraction list whose `range_pct` fails
to strictly tighten. -/
def countViol : List Contraction → ℕ
  | a :: b :: rest => (if b.rangePct < a.rangePct then 0 else 1) + countViol (b :: rest)
  | _ => 0

/-- A concrete 60-bar high series: 39 ascending bars, then a 21-bar base
with two tightening contractions (peak 100 at position 39). -/
def wHigh : List ℚ :=
  (List.range 39).map (fun i => (40 + i : ℚ)) ++
  [100, 95, 90, 85, 80, 82, 84, 86, 88, 90, 86, 84, 83, 82, 81, 84, 83, 82, 81, 80, 80]

/-- Lows matching `wHigh`. -/
def wLow : List ℚ :=
  (List.range 39).map (fun i => (38 + i : ℚ)) ++
  [98, 93, 88, 83, 78, 80, 82, 84, 86, 88, 84, 82, 81, 80, 79, 82, 81, 80, 79, 78, 79]

/-- Closes matching `wHigh` (post-peak trough 79, a 21 percent correction). -/
def wClose : List ℚ :=
  (List.range 39).map (fun i => (39 + i : ℚ)) ++
  [99, 94, 89, 84, 79, 81, 83, 85, 87, 89, 85, 83, 82, 81, 80, 83, 82, 81, 80, 79, 80]

/-- Flat volume for the concrete series. -/
def wVol : List ℚ := List.replicate 60 1000

/-- The payload `detect_contractions` returns on the concrete series:
contractions at base positions 0→4 (range 22 percent) and 9→19
(range 40/3 percent). -/
def wFound : VcpFound :=
  { contractions :=
      [{ highDate := 0, highVal := 100, lowDate := 4, lowVal := 78, rangePct := 22,
         avgVolume := 1000 },
       { highDate := 9, highVal := 90, lowDate := 19, lowVal := 78, rangePct := 40 / 3,
         avgVolume := 1000 }]
    numContractions := 2
    pivotPrice := 90
    baseDepthPct := 22
    baseDurationDays := 21
    tightness := 20 / 33
    volumeDryUpPct := 0
    baseStartIdx := 39 }

/-- A watchlist entry added on day 0, for the expiry example. -/
def cexCandidate : Candidate :=
  { symbol := 0, close := 100, vcpScore := 50, rsPercentile := 50, pivotPrice := 100,
    avgVolume := 1000, addedDate := 0 }

/-- The bar of day 0 in the direct-entry example (close 100). -/
def cexBarA0 : DayBar := { openPrice := 99, high := 101, low := 98, close := 100, volume := 1000 }

/-- Price data for the direct-entry example: symbol 0 trades on day 0
(close 100) and has no bar on day 1. -/
def cexBarDirect : ℕ → ℤ → Option DayBar := fun sym d =>
  if sym = 0 ∧ d = 0 then some cexBarA0 else none

/-- A screened candidate whose last screened close (100) is the close of day 0. -/
def cexCandA : Candidate :=
  { symbol := 0, close := 100, vcpScore := 80, rsPercentile := 90, pivotPrice := 95,
    avgVolume := 1000, addedDate := 0 }

/-- A well-funded engine state with no open positions. -/
def cexStateA : EngineState := { cash := 100000, positions := [], watchlist := [] }

/-- The current-day bar for the breakout example: close 10.5 above the pivot, on
double the average volume. -/
def cexBarB0 : DayBar := { openPrice := 10, high := 11, low := 9, close := 21 / 2, volume := 200000 }

/-- The current-day bar lookup for the breakout example. -/
def cexBarBreak : ℕ → Option DayBar := fun sym =>
  if sym = 0 then some cexBarB0 else none

/-- A watchlist candidate whose breakout condition holds on `cexBarBreak`. -/
def cexCandB : Candidate :=
  { symbol := 0, close := 10, vcpScore := 80, rsPercentile := 90, pivotPrice := 10,
    avgVolume := 100000, addedDate := 0 }

/-- An engine state with zero cash, no positions, and one watchlist entry. -/
def cexStateB : EngineState := { cash := 0, positions := [], watchlist := [cexCandB] }

/-- The trailing-stop recomputation shared verbatim by
`BacktestEngine._check_stops` and `update_trailing_stops`, applied after
the highest-price update.  Both embeddings are definitionally this core. -/
def trailCore (s : Settings) (pos1 : BtPosition) (currentPrice : ℚ) : BtPosition :=
  let gainPct := (currentPrice / pos1.entryPrice - 1) * 100
  if s.trailingStopTriggerPct ≤ gainPct then
    let newTrail := pos1.highestPrice * (1 - s.trailingStopPct / 100)
    match pos1.trailingStop with
    | none => { pos1 with trailingStop := some newTrail }
    | some t => if t < newTrail then { pos1 with trailingStop := some newTrail } else pos1
  else if s.breakevenTriggerPct ≤ gainPct then
    match pos1.trailingStop with
    | none => { pos1 with trailingStop := some pos1.entryPrice }
    | some t => if t < pos1.entryPrice then { pos1 with trailingStop := some pos1.entryPrice } else pos1
  else pos1

/-- A position with an existing trailing stop, for the stop-maintenance
witness. -/
def wPos : BtPosition :=
  { symbol := 0, entryDate := 0, entryPrice := 100, shares := 10, stopLoss := 90,
    trailingStop := some 95, highestPrice := 120 }

/-! ### Helper lemmas -/

theorem ratTrunc_eq_floor {q : ℚ} (h : 0 ≤ q) : ratTrunc q = ⌊q⌋ := by
  unfold ratTrunc
  rw [if_neg (not_lt.mpr h)]

theorem ratTrunc_cast_le {q : ℚ} (h : 0 ≤ q) : ((ratTrunc q : ℤ) : ℚ) ≤ q := by
  rw [ratTrunc_eq_floor h]
  exact Int.floor_le q

theorem countScore_bounds (n : ℕ) : 0 ≤ countScore n ∧ countScore n ≤ 30 := by
  unfold countScore
  split_ifs <;> norm_num

theorem tightScore_bounds (t : ℚ) : 0 ≤ tightScore t ∧ tightScore t ≤ 25 := by
  unfold tightScore
  split_ifs <;> norm_num

theorem volDryScore_bounds (w : ℚ) : 0 ≤ volDryScore w ∧ volDryScore w ≤ 20 := by
  unfold volDryScore
  split_ifs <;> norm_num

theorem durScore_bounds (d : ℕ) : 0 ≤ durScore d ∧ durScore d ≤ 15 := by
  unfold durScore
  split_ifs <;> norm_num

theorem depthScore_bounds (x : ℚ) : 0 ≤ depthScore x ∧ depthScore x ≤ 10 := by
  unfold depthScore
  split_ifs <;> norm_num

/-! ### C5 — the scorer -/

/-- C5: `score_vcp` is a pure function of the five measured inputs; on a
found pattern it equals the sum of the five fixed bucket values clamped to
100, it always lies in `[0, 100]`, and any input with `found = false`
scores exactly 0. -/
theorem score_vcp_spec (m : VcpMeasures) :
    (m.found = true →
      score_vcp m =
        min (countScore m.numContractions + tightScore m.tightness +
          volDryScore m.volumeDryUpPct + durScore m.baseDurationDays +
          depthScore m.baseDepthPct) 100) ∧
    0 ≤ score_vcp m ∧ score_vcp m ≤ 100 ∧
    (m.found = false → score_vcp m = 0) ∧
    score_vcp { m with found := false } = 0 := by
  have hsum : 0 ≤ countScore m.numContractions + tightScore m.tightness +
      volDryScore m.volumeDryUpPct + durScore m.baseDurationDays + depthScore m.baseDepthPct := by
    have h1 := countScore_bounds m.numContractions
    have h2 := tightScore_bounds m.tightness
    have h3 := volDryScore_bounds m.volumeDryUpPct
    have h4 := durScore_bounds m.baseDurationDays
    have h5 := depthScore_bounds m.baseDepthPct
    linarith [h1.1, h2.1, h3.1, h4.1, h5.1]
  refine ⟨?_, ?_, ?_, ?_, ?_⟩
  · intro h
    unfold score_vcp
    rw [h]
    rfl
  · unfold score_vcp
    cases hm : m.found
    · exact le_rfl
    · exact le_min hsum (by norm_num)
  · unfold score_vcp
    cases hm : m.found
    · exact (by norm_num : (0 : ℚ) ≤ 100)
    · exact min_le_right _ _
  · intro h
    unfold score_vcp
    rw [h]
    rfl
  · rfl

/-- Witness for C5: applying the scorer specification to a concrete
found pattern (n=3, tightness 0.4, dry-up 35, duration 60, depth 20). -/
theorem score_vcp_spec_witness :
    score_vcp
        { found := true, numContractions := 3, tightness := 2 / 5, volumeDryUpPct := 35,
          baseDurationDays := 60, baseDepthPct := 20 } =
      min (countScore 3 + tightScore (2 / 5) + volDryScore 35 + durScore 60 + depthScore 20)
        100 :=
  (score_vcp_spec
    { found := true, numContractions := 3, tightness := 2 / 5, volumeDryUpPct := 35,
      baseDurationDays := 60, baseDepthPct := 20 }).1 rfl

/-! ### C9 — input minimums of the detector -/

/-- C9: `detect_contractions` rejects every series of fewer than 50 bars
with the structured reason `insufficient data`, and `find_base_start`
reports no base whenever fewer than 5 bars exist at or after the
series-wide peak high. -/
theorem detect_input_minimums :
    (∀ high low close volume : List ℚ, close.length < 50 →
      detect_contractions defaultSettings high low close volume =
        DetectResult.rejected ("insufficient data")) ∧
    (∀ high close : List ℚ, ∀ m : ℚ, (close.drop (idxmaxPos high)).length < 5 →
      find_base_start high close m = none) := by
  constructor
  · intro high low close volume h
    unfold detect_contractions
    rw [if_pos h]
  · intro high close m h
    unfold find_base_start
    rw [if_pos h]

/-- Witness for C9 at concrete inputs: the empty series is rejected as
`insufficient data`, and a two-bar post-peak window yields no base. -/
theorem detect_input_minimums_witness :
    detect_contractions defaultSettings [] [] [] [] =
      DetectResult.rejected ("insufficient data") ∧
    find_base_start [1] [1, 1] 10 = none :=
  ⟨detect_input_minimums.1 [] [] [] [] (by decide),
   detect_input_minimums.2 [1] [1, 1] 10 (by decide)⟩

/-! ### C8 — watchlist expiry -/

/-- C8 counterexample: with the configured 20-day expiry, an entry added on
day 0 and checked on day 21 has seen only 1 trading day elapse on a
calendar containing just those two trading days — at or under the limit —
yet `_expire_watchlist` removes it, because the source compares calendar
days, not trading days. -/
theorem expire_watchlist_cex :
    expire_watchlist 20 21 [cexCandidate] = [] ∧
    elapsedTradingDays [0, 21] cexCandidate.addedDate 21 = 1 ∧
    elapsedTradingDays [0, 21] cexCandidate.addedDate 21 ≤ 20 := by
  decide

/-- C8 amended: the daily expiry step removes a watchlist entry exactly
when more than the configured number of calendar days (not trading days)
have elapsed since its `added_date`, and retains every entry at or under
that calendar-day limit. -/
theorem expire_watchlist_mem (expiryDays currentDate : ℤ) (wl : List Candidate) (c : Candidate) :
    c ∈ expire_watchlist expiryDays currentDate wl ↔
      c ∈ wl ∧ currentDate - c.addedDate ≤ expiryDays := by
  simp [expire_watchlist, List.mem_filter]

/-! ### C3 — position entry sizing -/

/-- C3: the sizing rule.  `btSizing` (the backtester entry sizing from
current cash) rejects when `risk_per_share ≤ 0` or the computed share count
is `≤ 0`, otherwise returns `⌊risk_amount / risk_per_share⌋` shares unless
the cost exceeds cash, in which case it clamps to `⌊cash / entry⌋` and
rejects if that is `≤ 0`; truncation agrees with `floor` on the
nonnegative quotients involved; and the three documented examples hold for
`calculate_position_size` at the configured account size and risk. -/
theorem position_sizing_rules (s : Settings) (cash e stp : ℚ) :
    ((e - stp ≤ 0 →
        btSizing cash e stp s.riskPerTradePct = none ∧
        calculate_position_size s e stp cash = 0) ∧
     (∀ n : ℤ, 0 < e - stp → n = ratTrunc (cash * (s.riskPerTradePct / 100) / (e - stp)) →
        (n ≤ 0 → btSizing cash e stp s.riskPerTradePct = none) ∧
        (0 < n → e * (n : ℚ) ≤ cash → btSizing cash e stp s.riskPerTradePct = some n) ∧
        (0 < n → cash < e * (n : ℚ) →
          (ratTrunc (cash / e) ≤ 0 → btSizing cash e stp s.riskPerTradePct = none) ∧
          (0 < ratTrunc (cash / e) →
            btSizing cash e stp s.riskPerTradePct = some (ratTrunc (cash / e))))) ∧
     (∀ q : ℚ, 0 ≤ q → ratTrunc q = ⌊q⌋)) ∧
    (calculate_position_size defaultSettings 100 90 100000 = 250 ∧
     calculate_position_size defaultSettings 200 180 100000 = 125 ∧
     calculate_position_size defaultSettings 100 110 100000 = 0) := by
  refine ⟨⟨?_, ?_, fun q hq => ratTrunc_eq_floor hq⟩,
    by norm_num [calculate_position_size, ratTrunc, defaultSettings],
    by norm_num [calculate_position_size, ratTrunc, defaultSettings],
    by norm_num [calculate_position_size, ratTrunc, defaultSettings]⟩
  · intro h
    constructor
    · unfold btSizing
      rw [if_pos h]
    · unfold calculate_position_size
      rw [if_pos h]
  · intro n hrps hn
    have hrps' : ¬(e - stp ≤ 0) := not_le.mpr hrps
    refine ⟨?_, ?_, ?_⟩
    · intro hle
      unfold btSizing
      rw [if_neg hrps']
      simp only [← hn]
      rw [if_pos hle]
    · intro hpos hcost
      unfold btSizing
      rw [if_neg hrps']
      simp only [← hn]
      rw [if_neg (not_le.mpr hpos), if_neg (not_lt.mpr hcost)]
    · intro hpos hcost
      constructor
      · intro hcl
        unfold btSizing
        rw [if_neg hrps']
        simp only [← hn]
        rw [if_neg (not_le.mpr hpos), if_pos hcost, if_pos hcl]
      · intro hcl
        unfold btSizing
        rw [if_neg hrps']
        simp only [← hn]
        rw [if_neg (not_le.mpr hpos), if_pos hcost, if_neg (not_le.mpr hcl)]

/-- Witness for C3: at entry 100 / stop 110 the rejection branch fires
(both sizings yield no shares), and at entry 100 / stop 90 with cash
100000 the backtest sizing opens exactly 250 shares. -/
theorem position_sizing_rules_witness :
    (btSizing 100000 100 110 defaultSettings.riskPerTradePct = none ∧
     calculate_position_size defaultSettings 100 110 100000 = 0) ∧
    btSizing 100000 100 90 defaultSettings.riskPerTradePct = some 250 :=
  ⟨(position_sizing_rules defaultSettings 100000 100 110).1.1 (by norm_num),
   (((position_sizing_rules defaultSettings 100000 100 90).1.2.1 250 (by norm_num)
      (by norm_num [ratTrunc, defaultSettings])).2.1 (by decide) (by norm_num))⟩

/-! ### C4 — live sizing versus backtest sizing -/

/-- C4 counterexample: on the identical input (entry 100, stop 99, cash and
account 1000, configured risk 2.5 percent) the live
`calculate_position_size` returns 25 shares while the
entry sizing clamps to 10 shares — the two do not implement the same
numeric rule. -/
theorem sizing_refinement_cex :
    calculate_position_size defaultSettings 100 99 1000 = 25 ∧
    btSizing 1000 100 99 defaultSettings.riskPerTradePct = some 10 ∧
    (25 : ℤ) ≠ 10 :=
  ⟨by norm_num [calculate_position_size, ratTrunc, defaultSettings],
   by norm_num [btSizing, ratTrunc, defaultSettings],
   by decide⟩

/-- C4 amended: the two sizings agree (counting rejection as 0 shares)
exactly on the inputs where the backtester cash clamp does not fire, that
is whenever the unclamped cost `entry × ⌊risk_amount / risk_per_share⌋`
does not exceed cash; when the cost exceeds cash, the backtest engine
clamps to `⌊cash / entry⌋` while the live function returns the unclamped
count. -/
theorem sizing_refinement_no_clamp (s : Settings) (e stp cash : ℚ)
    (h : e * ((ratTrunc (cash * (s.riskPerTradePct / 100) / (e - stp)) : ℤ) : ℚ) ≤ cash) :
    (btSizing cash e stp s.riskPerTradePct).getD 0 = calculate_position_size s e stp cash := by
  unfold btSizing calculate_position_size
  rcases le_or_lt (e - stp) 0 with hrps | hrps
  · rw [if_pos hrps, if_pos hrps]
    rfl
  · rw [if_neg (not_le.mpr hrps), if_neg (not_le.mpr hrps)]
    rcases le_or_lt (ratTrunc (cash * (s.riskPerTradePct / 100) / (e - stp))) 0 with hn | hn
    · rw [if_pos hn]
      simp [max_eq_right hn]
    · rw [if_neg (not_le.mpr hn), if_neg (not_lt.mpr h)]
      simp [max_eq_left hn.le]

/-- Witness for the amended C4 claim: at entry 100, stop 90, cash 100000 the
unclamped cost (25000) is within cash and both sizings give 250 shares. -/
theorem update_stops_bt_eq_core (s : Settings) (pos : BtPosition) (price : ℚ) :
    update_stops_bt s pos price =
      trailCore s (if pos.highestPrice < price then { pos with highestPrice := price } else pos)
        price := rfl

theorem update_trailing_stops_step_eq_core (s : Settings) (pos : BtPosition) (price : ℚ) :
    update_trailing_stops_step s pos price =
      trailCore s (if pos.highestPrice < price then { pos with highestPrice := price } else pos)
        price := rfl

theorem trailCore_trailing (s : Settings) (p1 : BtPosition) (price t : ℚ)
    (h : p1.trailingStop = some t) :
    (trailCore s p1 price).trailingStop =
      (if s.trailingStopTriggerPct ≤ (price / p1.entryPrice - 1) * 100 then
        some (max t (p1.highestPrice * (1 - s.trailingStopPct / 100)))
      else if s.breakevenTriggerPct ≤ (price / p1.entryPrice - 1) * 100 then
        some (max t p1.entryPrice)
      else some t) := by
  unfold trailCore
  simp only [h]
  by_cases h1 : s.trailingStopTriggerPct ≤ (price / p1.entryPrice - 1) * 100
  · rw [if_pos h1, if_pos h1]
    by_cases h2 : t < p1.highestPrice * (1 - s.trailingStopPct / 100)
    · rw [if_pos h2]
      exact congrArg some (max_eq_right h2.le).symm
    · rw [if_neg h2]
      exact h.trans (congrArg some (max_eq_left (not_lt.mp h2)).symm)
  · rw [if_neg h1, if_neg h1]
    by_cases h2 : s.breakevenTriggerPct ≤ (price / p1.entryPrice - 1) * 100
    · rw [if_pos h2, if_pos h2]
      by_cases h3 : t < p1.entryPrice
      · rw [if_pos h3]
        exact congrArg some (max_eq_right h3.le).symm
      · rw [if_neg h3]
        exact h.trans (congrArg some (max_eq_left (not_lt.mp h3)).symm)
    · rw [if_neg h2, if_neg h2]
      exact h

theorem sizing_refinement_no_clamp_witness :
    (btSizing 100000 100 90 defaultSettings.riskPerTradePct).getD 0 =
      calculate_position_size defaultSettings 100 90 100000 :=
  sizing_refinement_no_clamp defaultSettings 100 90 100000 (by
    have h250 :
        ratTrunc (100000 * (defaultSettings.riskPerTradePct / 100) / (100 - 90)) = 250 := by
      norm_num [ratTrunc, defaultSettings]
    rw [h250]
    norm_num)

/-! ### C2 — trailing stops never lowered -/

/-- C2: neither the daily backtester stop maintenance nor the live
`update_trailing_stops` ever lowers an existing trailing stop: when the
gain reaches the trailing trigger the stop becomes the maximum of its old
value and `highest_price × (1 − trailPct)`, when it only reaches the
breakeven trigger it is raised to at least the entry price, and otherwise
it is unchanged; in particular the new stop is always defined and at least
the old one — and the live update is the same function as the backtest
one. -/
theorem trailing_stop_monotone (s : Settings) (pos : BtPosition) (price t : ℚ)
    (h : pos.trailingStop = some t) :
    ((update_stops_bt s pos price).trailingStop ≠ none ∧
      t ≤ (update_stops_bt s pos price).trailingStop.getD t) ∧
    (s.trailingStopTriggerPct ≤ (price / pos.entryPrice - 1) * 100 →
      (update_stops_bt s pos price).trailingStop =
        some (max t (max pos.highestPrice price * (1 - s.trailingStopPct / 100)))) ∧
    ((price / pos.entryPrice - 1) * 100 < s.trailingStopTriggerPct →
      s.breakevenTriggerPct ≤ (price / pos.entryPrice - 1) * 100 →
      (update_stops_bt s pos price).trailingStop = some (max t pos.entryPrice)) ∧
    ((price / pos.entryPrice - 1) * 100 < s.trailingStopTriggerPct →
      (price / pos.entryPrice - 1) * 100 < s.breakevenTriggerPct →
      (update_stops_bt s pos price).trailingStop = some t) ∧
    update_trailing_stops_step s pos price = update_stops_bt s pos price := by
  set pos1 : BtPosition :=
    if pos.highestPrice < price then { pos with highestPrice := price } else pos with hpos1
  have h1ts : pos1.trailingStop = some t := by
    rw [hpos1]
    split_ifs <;> exact h
  have h1ep : pos1.entryPrice = pos.entryPrice := by
    rw [hpos1]
    split_ifs <;> rfl
  have h1hp : pos1.highestPrice = max pos.highestPrice price := by
    rw [hpos1]
    split_ifs with hh
    · exact (max_eq_right hh.le).symm
    · exact (max_eq_left (not_lt.mp hh)).symm
  have hcore := trailCore_trailing s pos1 price t h1ts
  rw [h1ep, h1hp] at hcore
  have hbt : (update_stops_bt s pos price).trailingStop =
      (if s.trailingStopTriggerPct ≤ (price / pos.entryPrice - 1) * 100 then
        some (max t (max pos.highestPrice price * (1 - s.trailingStopPct / 100)))
      else if s.breakevenTriggerPct ≤ (price / pos.entryPrice - 1) * 100 then
        some (max t pos.entryPrice)
      else some t) := by
    rw [update_stops_bt_eq_core, ← hpos1]
    exact hcore
  refine ⟨⟨?_, ?_⟩, ?_, ?_, ?_, rfl⟩
  · rw [hbt]
    split_ifs <;> simp
  · rw [hbt]
    split_ifs <;> simp [le_max_left]
  · intro hA
    rw [hbt, if_pos hA]
  · intro hA hB
    rw [hbt, if_neg (not_le.mpr hA), if_pos hB]
  · intro hA hB
    rw [hbt, if_neg (not_le.mpr hA), if_neg (not_le.mpr hB)]

/-- Witness for C2 on a concrete position: entry 100, trailing stop 95,
highest 120, updated at price 140 (gain 40 percent reaches the trailing
trigger). -/
theorem trailing_stop_monotone_witness :
    ((update_stops_bt defaultSettings wPos 140).trailingStop ≠ none ∧
      (95 : ℚ) ≤ (update_stops_bt defaultSettings wPos 140).trailingStop.getD 95) ∧
    (defaultSettings.trailingStopTriggerPct ≤ ((140 : ℚ) / wPos.entryPrice - 1) * 100 →
      (update_stops_bt defaultSettings wPos 140).trailingStop =
        some (max 95 (max wPos.highestPrice 140 * (1 - defaultSettings.trailingStopPct / 100)))) ∧
    (((140 : ℚ) / wPos.entryPrice - 1) * 100 < defaultSettings.trailingStopTriggerPct →
      defaultSettings.breakevenTriggerPct ≤ ((140 : ℚ) / wPos.entryPrice - 1) * 100 →
      (update_stops_bt defaultSettings wPos 140).trailingStop = some (max 95 wPos.entryPrice)) ∧
    (((140 : ℚ) / wPos.entryPrice - 1) * 100 < defaultSettings.trailingStopTriggerPct →
      ((140 : ℚ) / wPos.entryPrice - 1) * 100 < defaultSettings.breakevenTriggerPct →
      (update_stops_bt defaultSettings wPos 140).trailingStop = some 95) ∧
    update_trailing_stops_step defaultSettings wPos 140 = update_stops_bt defaultSettings wPos 140 :=
  trailing_stop_monotone defaultSettings wPos 140 95 rfl

/-! ### C10 — cash never goes negative -/

theorem btSizing_eq (cash e stp r : ℚ) :
    btSizing cash e stp r =
      (if e - stp ≤ 0 then none
       else if ratTrunc (cash * (r / 100) / (e - stp)) ≤ 0 then none
       else if cash < e * ((ratTrunc (cash * (r / 100) / (e - stp)) : ℤ) : ℚ) then
         (if ratTrunc (cash / e) ≤ 0 then none else some (ratTrunc (cash / e)))
       else some (ratTrunc (cash * (r / 100) / (e - stp)))) := rfl

theorem btSizing_cost_le (cash e stp r : ℚ) (hc : 0 ≤ cash) (n : ℤ)
    (h : btSizing cash e stp r = some n) : e * (n : ℚ) ≤ cash := by
  rw [btSizing_eq] at h
  by_cases h1 : e - stp ≤ 0
  · rw [if_pos h1] at h
    exact absurd h (by simp)
  · rw [if_neg h1] at h
    by_cases h2 : ratTrunc (cash * (r / 100) / (e - stp)) ≤ 0
    · rw [if_pos h2] at h
      exact absurd h (by simp)
    · rw [if_neg h2] at h
      by_cases h3 : cash < e * ((ratTrunc (cash * (r / 100) / (e - stp)) : ℤ) : ℚ)
      · rw [if_pos h3] at h
        by_cases h4 : ratTrunc (cash / e) ≤ 0
        · rw [if_pos h4] at h
          exact absurd h (by simp)
        · rw [if_neg h4] at h
          have hn := Option.some.inj h
          have hsh : (0 : ℤ) < ratTrunc (cash * (r / 100) / (e - stp)) := lt_of_not_le h2
          have hshq : (0 : ℚ) < ((ratTrunc (cash * (r / 100) / (e - stp)) : ℤ) : ℚ) := by
            exact_mod_cast hsh
          have hepos : 0 < e := by
            by_contra hne
            have hnp : e * ((ratTrunc (cash * (r / 100) / (e - stp)) : ℤ) : ℚ) ≤ 0 :=
              mul_nonpos_iff.mpr (Or.inr ⟨not_lt.mp hne, hshq.le⟩)
            exact absurd (lt_of_le_of_lt hc h3) (not_lt.mpr hnp)
          have hdiv : (0 : ℚ) ≤ cash / e := div_nonneg hc hepos.le
          have hfl : ((ratTrunc (cash / e) : ℤ) : ℚ) ≤ cash / e := ratTrunc_cast_le hdiv
          rw [← hn]
          calc e * ((ratTrunc (cash / e) : ℤ) : ℚ)
              = ((ratTrunc (cash / e) : ℤ) : ℚ) * e := mul_comm _ _
            _ ≤ cash := (le_div_iff₀ hepos).mp hfl
      · rw [if_neg h3] at h
        have hn := Option.some.inj h
        rw [← hn]
        exact not_lt.mp h3

theorem enter_position_cash (s : Settings) (st : EngineState) (c : Candidate)
    (price : ℚ) (day : ℤ) :
    (enter_position_at_price s st c price day).cash =
      (match btSizing st.cash price (price * (1 - s.defaultStopLossPct / 100))
          s.riskPerTradePct with
        | none => st.cash
        | some n => st.cash - price * (n : ℚ)) := by
  unfold enter_position_at_price
  cases hbs : btSizing st.cash price (price * (1 - s.defaultStopLossPct / 100))
      s.riskPerTradePct <;> simp [hbs]

/-- C10: position entries never charge more than the cash at hand (the
cash clamp guarantees `cost ≤ cash`), position closes only add proceeds,
and therefore cash stays nonnegative across every entry and every close
(given a nonnegative exit price and share count, which every open position
has). -/
theorem cash_invariant (s : Settings) (st : EngineState) (c : Candidate) (price : ℚ)
    (day : ℤ) (p : BtPosition) (exitPrice : ℚ)
    (hc : 0 ≤ st.cash) (hs : 0 ≤ p.shares) (he : 0 ≤ exitPrice) :
    (∃ cost, (enter_position_at_price s st c price day).cash = st.cash - cost ∧
      cost ≤ st.cash) ∧
    0 ≤ (enter_position_at_price s st c price day).cash ∧
    (close_position st p exitPrice).cash = st.cash + exitPrice * (p.shares : ℚ) ∧
    0 ≤ (close_position st p exitPrice).cash := by
  have hcost : ∃ cost, (enter_position_at_price s st c price day).cash = st.cash - cost ∧
      cost ≤ st.cash := by
    rw [enter_position_cash]
    cases hbs : btSizing st.cash price (price * (1 - s.defaultStopLossPct / 100))
        s.riskPerTradePct with
    | none => exact ⟨0, by simp, hc⟩
    | some n => exact ⟨price * (n : ℚ), rfl, btSizing_cost_le _ _ _ _ hc n hbs⟩
  refine ⟨hcost, ?_, rfl, ?_⟩
  · obtain ⟨cost, heq, hle⟩ := hcost
    rw [heq]
    linarith
  · have : 0 ≤ exitPrice * (p.shares : ℚ) :=
      mul_nonneg he (by exact_mod_cast hs)
    show 0 ≤ st.cash + exitPrice * (p.shares : ℚ)
    linarith

/-- Witness for C10 at a concrete state: cash 100000, an entry at price
100, and a close of a 10-share position at exit price 50. -/
theorem cash_invariant_witness :
    (∃ cost, (enter_position_at_price defaultSettings cexStateA cexCandA 100 0).cash =
        cexStateA.cash - cost ∧ cost ≤ cexStateA.cash) ∧
    0 ≤ (enter_position_at_price defaultSettings cexStateA cexCandA 100 0).cash ∧
    (close_position cexStateA wPos 50).cash = cexStateA.cash + 50 * (wPos.shares : ℚ) ∧
    0 ≤ (close_position cexStateA wPos 50).cash :=
  cash_invariant defaultSettings cexStateA cexCandA 100 0 wPos 50 (by norm_num [cexStateA])
    (by norm_num [wPos]) (by norm_num)

/-! ### C1 — invariants of the returned contraction list -/

theorem countViol_nil : countViol [] = 0 := rfl

theorem countViol_single (a : Contraction) : countViol [a] = 0 := rfl

theorem countViol_cons₂ (a b : Contraction) (rest : List Contraction) :
    countViol (a :: b :: rest) =
      (if b.rangePct < a.rangePct then 0 else 1) + countViol (b :: rest) := rfl

theorem tightRest_sublist (minC : ℕ) :
    ∀ (l : List Contraction) (k : ℕ) (prev : Contraction), (tightRest minC k prev l).Sublist l
  | [], _, _ => by simp [tightRest]
  | c :: rest, k, prev => by
    unfold tightRest
    split_ifs
    · exact (tightRest_sublist minC rest (k + 1) c).cons₂ c
    · exact List.nil_sublist _
    · exact (tightRest_sublist minC rest (k + 1) c).cons₂ c

theorem tighteningFilter_sublist (minC : ℕ) (l : List Contraction) :
    (tighteningFilter minC l).Sublist l := by
  cases l with
  | nil => simp [tighteningFilter]
  | cons c rest => exact (tightRest_sublist minC rest 1 c).cons₂ c

theorem tightRest_countViol_zero (minC : ℕ) :
    ∀ (l : List Contraction) (k : ℕ) (prev : Contraction), minC ≤ k →
      countViol (prev :: tightRest minC k prev l) = 0
  | [], _, _, _ => rfl
  | c :: rest, k, prev, hk => by
    unfold tightRest
    by_cases h1 : c.rangePct < prev.rangePct
    · rw [if_pos h1, countViol_cons₂, if_pos h1,
        tightRest_countViol_zero minC rest (k + 1) c (Nat.le_succ_of_le hk)]
    · rw [if_neg h1, if_pos hk]
      rfl

theorem tightRest_countViol_le_one :
    ∀ (l : List Contraction) (prev : Contraction),
      countViol (prev :: tightRest 2 1 prev l) ≤ 1
  | [], _ => by simp [tightRest, countViol_single]
  | c :: rest, prev => by
    unfold tightRest
    by_cases h1 : c.rangePct < prev.rangePct
    · rw [if_pos h1, countViol_cons₂, if_pos h1, tightRest_countViol_zero 2 rest 2 c le_rfl]
      norm_num
    · rw [if_neg h1, if_neg (by norm_num : ¬(2 ≤ 1)), countViol_cons₂, if_neg h1,
        tightRest_countViol_zero 2 rest 2 c le_rfl]

theorem countViol_take : ∀ (l : List Contraction) (n : ℕ), countViol (l.take n) ≤ countViol l
  | [], n => by simp [countViol_nil]
  | a :: l', n => by
    cases n with
    | zero => simp [countViol_nil]
    | succ m =>
      cases l' with
      | nil =>
        simp only [List.take_succ_cons, List.take_nil]
        exact le_rfl
      | cons b l'' =>
        cases m with
        | zero =>
          simp only [List.take_succ_cons, List.take_zero]
          exact Nat.zero_le _
        | succ m' =>
          simp only [List.take_succ_cons]
          rw [countViol_cons₂, countViol_cons₂]
          have ih := countViol_take (b :: l'') (m' + 1)
          simp only [List.take_succ_cons] at ih
          exact Nat.add_le_add_left ih _

theorem swingHighIdx_sorted (data : List ℚ) (order : ℕ) :
    List.Pairwise (· < ·) (swingHighIdx data order) :=
  List.Pairwise.filter _ (List.pairwise_lt_range _)

theorem pairContraction_spec (h l v : List ℚ) (slIdx : List ℕ) (i : ℕ) (c : Contraction)
    (hc : pairContraction h l v slIdx i = some c) : c.highDate = i ∧ i ≤ c.lowDate := by
  unfold pairContraction at hc
  cases hh : (slIdx.filter (fun j => decide (i ≤ j))).head? with
  | none =>
    rw [hh] at hc
    exact absurd hc (by simp)
  | some j =>
    rw [hh] at hc
    have hmem : j ∈ slIdx.filter (fun j => decide (i ≤ j)) :=
      List.mem_of_mem_head? (Option.mem_def.mpr hh)
    have hji : i ≤ j := of_decide_eq_true (List.mem_filter.mp hmem).2
    have hrec := Option.some.inj hc
    rw [← hrec]
    exact ⟨rfl, hji⟩

theorem buildContractions_pairwise (h l v : List ℚ) (shIdx slIdx : List ℕ)
    (hs : List.Pairwise (· < ·) shIdx) :
    List.Pairwise (fun a b => a.highDate < b.highDate) (buildContractions h l v shIdx slIdx) := by
  unfold buildContractions
  rw [List.pairwise_filterMap]
  refine hs.imp ?_
  intro a b hab x hx y hy
  have hxa := (pairContraction_spec h l v slIdx a x (Option.mem_def.mp hx)).1
  have hyb := (pairContraction_spec h l v slIdx b y (Option.mem_def.mp hy)).1
  rw [hxa, hyb]
  exact hab

theorem buildContractions_dates (h l v : List ℚ) (shIdx slIdx : List ℕ) (c : Contraction)
    (hc : c ∈ buildContractions h l v shIdx slIdx) : c.highDate ≤ c.lowDate := by
  unfold buildContractions at hc
  obtain ⟨i, _, hpc⟩ := List.mem_filterMap.mp hc
  obtain ⟨h1, h2⟩ := pairContraction_spec h l v slIdx i c hpc
  rw [h1]
  exact h2

theorem contractionsStage_found (s : Settings) (cons : List Contraction) (b : ℕ)
    (hh ll : List ℚ) (r : VcpFound)
    (h : contractionsStage s cons b hh ll = DetectResult.found r) :
    r.contractions = (tighteningFilter s.minContractions cons).take s.maxContractions ∧
    s.minContractions ≤ (tighteningFilter s.minContractions cons).length := by
  simp only [contractionsStage] at h
  by_cases h1 : cons.length < s.minContractions
  · rw [if_pos h1] at h
    exact absurd h (by simp)
  · rw [if_neg h1] at h
    by_cases h2 : (tighteningFilter s.minContractions cons).length < s.minContractions
    · rw [if_pos h2] at h
      exact absurd h (by simp)
    · rw [if_neg h2] at h
      have hr := DetectResult.found.inj h
      rw [← hr]
      exact ⟨rfl, not_lt.mp h2⟩

/-- C1: whenever `detect_contractions` (at the configured minimum 2 /
maximum 6) reports `found`, the returned contraction list is chronological
(strictly increasing swing-high dates, each low at or after its high), has
at most one adjacent non-tightening pair, and its length lies between
`min_contractions` and `max_contractions`. -/
theorem detect_contractions_invariant (high low close volume : List ℚ) (r : VcpFound)
    (h : detect_contractions defaultSettings high low close volume = DetectResult.found r) :
    List.Pairwise (fun a b => a.highDate < b.highDate) r.contractions ∧
    (∀ c ∈ r.contractions, c.highDate ≤ c.lowDate) ∧
    countViol r.contractions ≤ 1 ∧
    defaultSettings.minContractions ≤ r.contractions.length ∧
    r.contractions.length ≤ defaultSettings.maxContractions := by
  by_cases h1 : close.length < 50
  · rw [detect_input_minimums.1 high low close volume h1] at h
    exact absurd h (by simp)
  · cases hfb : find_base_start high close defaultSettings.minBaseCorrectionPct with
    | none =>
      simp only [detect_contractions, if_neg h1, hfb] at h
      exact absurd h (by simp)
    | some baseStart =>
      have hstep : detect_contractions defaultSettings high low close volume =
          (if (high.drop baseStart).length < 20 then DetectResult.rejected ("base too short")
           else if (swingHighIdx (high.drop baseStart) defaultSettings.swingOrder).length < 2 ∨
               (swingLowIdx (low.drop baseStart) defaultSettings.swingOrder).length < 2 then
             DetectResult.rejected ("not enough swing points")
           else
             contractionsStage defaultSettings
               (buildContractions (high.drop baseStart) (low.drop baseStart)
                 (volume.drop baseStart)
                 (swingHighIdx (high.drop baseStart) defaultSettings.swingOrder)
                 (swingLowIdx (low.drop baseStart) defaultSettings.swingOrder))
               baseStart (high.drop baseStart) (low.drop baseStart)) := by
        simp only [detect_contractions, if_neg h1, hfb]
      rw [hstep] at h
      by_cases h2 : (high.drop baseStart).length < 20
      · rw [if_pos h2] at h
        exact absurd h (by simp)
      · rw [if_neg h2] at h
        by_cases h3 : (swingHighIdx (high.drop baseStart) defaultSettings.swingOrder).length < 2 ∨
            (swingLowIdx (low.drop baseStart) defaultSettings.swingOrder).length < 2
        · rw [if_pos h3] at h
          exact absurd h (by simp)
        · rw [if_neg h3] at h
          obtain ⟨hrc, hlen⟩ := contractionsStage_found _ _ _ _ _ _ h
          have hpw := buildContractions_pairwise (high.drop baseStart) (low.drop baseStart)
            (volume.drop baseStart)
            (swingHighIdx (high.drop baseStart) defaultSettings.swingOrder)
            (swingLowIdx (low.drop baseStart) defaultSettings.swingOrder)
            (swingHighIdx_sorted _ _)
          have hsub : r.contractions.Sublist
              (buildContractions (high.drop baseStart) (low.drop baseStart)
                (volume.drop baseStart)
                (swingHighIdx (high.drop baseStart) defaultSettings.swingOrder)
                (swingLowIdx (low.drop baseStart) defaultSettings.swingOrder)) := by
            rw [hrc]
            exact (List.take_sublist _ _).trans (tighteningFilter_sublist _ _)
          refine ⟨List.Pairwise.sublist hsub hpw, ?_, ?_, ?_, ?_⟩
          · intro c hcmem
            exact buildContractions_dates _ _ _ _ _ c (hsub.subset hcmem)
          · rw [hrc]
            refine le_trans (countViol_take _ _) ?_
            cases hcc : buildContractions (high.drop baseStart) (low.drop baseStart)
                (volume.drop baseStart)
                (swingHighIdx (high.drop baseStart) defaultSettings.swingOrder)
                (swingLowIdx (low.drop baseStart) defaultSettings.swingOrder) with
            | nil => simp [tighteningFilter, countViol_nil]
            | cons c0 crest => exact tightRest_countViol_le_one crest c0
          · rw [hrc, List.length_take]
            exact le_min (by decide) hlen
          · rw [hrc, List.length_take]
            exact min_le_left _ _

set_option maxRecDepth 4000000 in
theorem wFound_detect :
    detect_contractions defaultSettings wHigh wLow wClose wVol = DetectResult.found wFound := by
  with_unfolding_all rfl

/-- Witness for C1: the concrete 60-bar series, on which the detector
returns exactly `wFound`, and the stated invariants instantiated there. -/
theorem detect_contractions_invariant_witness :
    List.Pairwise (fun a b => a.highDate < b.highDate) wFound.contractions ∧
    (∀ c ∈ wFound.contractions, c.highDate ≤ c.lowDate) ∧
    countViol wFound.contractions ≤ 1 ∧
    defaultSettings.minContractions ≤ wFound.contractions.length ∧
    wFound.contractions.length ≤ defaultSettings.maxContractions :=
  detect_contractions_invariant wHigh wLow wClose wVol wFound wFound_detect

/-! ### C7 — direct-entry pricing and dating -/

theorem enter_position_positions (s : Settings) (st : EngineState) (c : Candidate)
    (price : ℚ) (day : ℤ) :
    (enter_position_at_price s st c price day).watchlist = st.watchlist ∧
    ∃ tail, (enter_position_at_price s st c price day).positions = st.positions ++ tail ∧
      tail.length ≤ 1 ∧
      ∀ p ∈ tail, p.symbol = c.symbol ∧ p.entryPrice = price ∧ p.entryDate = day := by
  unfold enter_position_at_price
  cases hbs : btSizing st.cash price (price * (1 - s.defaultStopLossPct / 100))
      s.riskPerTradePct with
  | none =>
    simp only [hbs]
    exact ⟨trivial, [], (List.append_nil _).symm, by simp, by simp⟩
  | some n =>
    simp only [hbs]
    refine ⟨trivial,
      [{ symbol := c.symbol
         entryDate := day
         entryPrice := price
         shares := n
         stopLoss := price * (1 - s.defaultStopLossPct / 100)
         trailingStop := none
         highestPrice := price }], rfl, by simp, ?_⟩
    intro p hp
    rw [List.mem_singleton] at hp
    subst hp
    exact ⟨rfl, rfl, rfl⟩

theorem direct_entry_fold (s : Settings) (bar : ℕ → ℤ → Option DayBar) (nextDay : ℤ)
    (held : List ℕ) :
    ∀ (l : List Candidate) (acc : EngineState),
      ∃ newPs,
        (l.foldl (fun a c => if held.contains c.symbol then a
          else enter_position_at_price s a c (direct_entry_price bar nextDay c) nextDay)
          acc).positions = acc.positions ++ newPs ∧
        newPs.length ≤ l.length ∧
        ∀ p ∈ newPs, p.entryDate = nextDay ∧
          ∃ c ∈ l, p.symbol = c.symbol ∧ p.entryPrice = direct_entry_price bar nextDay c
  | [], acc => ⟨[], by simp, by simp, by simp⟩
  | c :: rest, acc => by
    simp only [List.foldl_cons]
    by_cases hheld : held.contains c.symbol
    · rw [if_pos hheld]
      obtain ⟨newPs, h1, h2, h3⟩ := direct_entry_fold s bar nextDay held rest acc
      refine ⟨newPs, h1, le_trans h2 (Nat.le_succ _), ?_⟩
      intro p hp
      obtain ⟨hd, cc, hcc, hcs⟩ := h3 p hp
      exact ⟨hd, cc, List.mem_cons_of_mem _ hcc, hcs⟩
    · rw [if_neg hheld]
      obtain ⟨_, tail, hpos, htl, htail⟩ :=
        enter_position_positions s acc c (direct_entry_price bar nextDay c) nextDay
      obtain ⟨newPs, h1, h2, h3⟩ := direct_entry_fold s bar nextDay held rest
        (enter_position_at_price s acc c (direct_entry_price bar nextDay c) nextDay)
      refine ⟨tail ++ newPs, ?_, ?_, ?_⟩
      · rw [h1, hpos, List.append_assoc]
      · calc (tail ++ newPs).length = tail.length + newPs.length := List.length_append _ _
          _ ≤ 1 + rest.length := Nat.add_le_add htl h2
          _ = (c :: rest).length := by simp [Nat.add_comm]
      · intro p hp
        rcases List.mem_append.mp hp with hp | hp
        · obtain ⟨hs, hpr, hd⟩ := htail p hp
          exact ⟨hd, c, List.mem_cons_self _ _, hs, hpr⟩
        · obtain ⟨hd, cc, hcc, hcs⟩ := h3 p hp
          exact ⟨hd, cc, List.mem_cons_of_mem _ hcc, hcs⟩

/-- C7 amended: in direct-entry mode, on a re-screen day that is not the
final trading day, every position opened by the step is dated the next
trading day and priced by `direct_entry_price` — the open of the next day
when that bar exists, otherwise the last screened close of the candidate
(which can coincide with the close of the current day); at most the number of free
position slots are opened. -/
theorem direct_entry_spec (s : Settings) (bar : ℕ → ℤ → Option DayBar) (tradingDays : List ℤ)
    (i : ℕ) (screenResults : List Candidate) (maxPos : ℕ) (st : EngineState)
    (hnext : i + 1 < tradingDays.length) :
    ∃ newPs,
      (direct_entry_step s bar tradingDays i screenResults maxPos st).positions =
        st.positions ++ newPs ∧
      newPs.length ≤ maxPos - st.positions.length ∧
      ∀ p ∈ newPs, p.entryDate = tradingDays.getD (i + 1) 0 ∧
        ∃ c ∈ screenResults, p.symbol = c.symbol ∧
          p.entryPrice = direct_entry_price bar (tradingDays.getD (i + 1) 0) c := by
  obtain ⟨newPs, h1, h2, h3⟩ := direct_entry_fold s bar (tradingDays.getD (i + 1) 0)
    (st.positions.map (fun p => p.symbol))
    (screenResults.take (maxPos - st.positions.length)) st
  have hstep : (direct_entry_step s bar tradingDays i screenResults maxPos st).positions =
      st.positions ++ newPs := by
    unfold direct_entry_step
    rw [if_pos hnext]
    exact h1
  refine ⟨newPs, hstep, ?_, ?_⟩
  · refine le_trans h2 ?_
    rw [List.length_take]
    exact min_le_left _ _
  · intro p hp
    obtain ⟨hd, c, hc, hcs⟩ := h3 p hp
    exact ⟨hd, c, (List.take_sublist _ _).subset hc, hcs⟩

/-- C7 counterexample: with the open of the next day unavailable, the
entered position is priced at the last screened close of the candidate —
numerically the own close of the current day (100), contradicting "never
at the close of the current day". -/
theorem direct_entry_cex :
    (direct_entry_step defaultSettings cexBarDirect [0, 1] 0 [cexCandA] 5 cexStateA).positions.map
        (fun p => p.entryPrice) = [100] ∧
    cexBarDirect cexCandA.symbol 0 = some cexBarA0 ∧
    cexBarA0.close = 100 ∧
    cexBarDirect cexCandA.symbol 1 = none := by
  refine ⟨by with_unfolding_all rfl, by with_unfolding_all rfl, rfl, by with_unfolding_all rfl⟩

/-- Witness for the amended C7 claim at the same concrete input. -/
theorem direct_entry_spec_witness :
    ∃ newPs,
      (direct_entry_step defaultSettings cexBarDirect [0, 1] 0 [cexCandA] 5 cexStateA).positions =
        cexStateA.positions ++ newPs ∧
      newPs.length ≤ 5 - cexStateA.positions.length ∧
      ∀ p ∈ newPs, p.entryDate = ([0, 1] : List ℤ).getD (0 + 1) 0 ∧
        ∃ c ∈ [cexCandA], p.symbol = c.symbol ∧
          p.entryPrice = direct_entry_price cexBarDirect (([0, 1] : List ℤ).getD (0 + 1) 0) c :=
  direct_entry_spec defaultSettings cexBarDirect [0, 1] 0 [cexCandA] 5 cexStateA (by decide)

/-! ### C6 — the breakout entry step -/

theorem enterLoop_spec (s : Settings) (maxPos : ℕ) (day : ℤ) :
    ∀ (l : List (Candidate × ℚ)) (st : EngineState),
      (enterLoop s maxPos day st l).positions.length ≤ max st.positions.length maxPos ∧
      (enterLoop s maxPos day st l).watchlist.Sublist st.watchlist ∧
      ∃ cs newPs,
        cs.Sublist l ∧
        (enterLoop s maxPos day st l).positions = st.positions ++ newPs ∧
        List.Forall₂ (fun (p : BtPosition) (cp : Candidate × ℚ) =>
          p.symbol = (cp.1).symbol ∧ p.entryPrice = cp.2 ∧ p.entryDate = day) newPs cs ∧
        (st.watchlist.Nodup → ∀ cp ∈ cs, (cp.1) ∉ (enterLoop s maxPos day st l).watchlist)
  | [], st => by
    simp only [enterLoop]
    exact ⟨le_max_left _ _, List.Sublist.refl _, [], [], List.nil_sublist _,
      (List.append_nil _).symm, List.Forall₂.nil,
      fun _ cp hcp => absurd hcp (List.not_mem_nil _)⟩
  | (c, price) :: rest, st => by
    by_cases hcap : maxPos ≤ st.positions.length
    · have heq : enterLoop s maxPos day st ((c, price) :: rest) = st := by
        unfold enterLoop
        rw [if_pos hcap]
      rw [heq]
      exact ⟨le_max_left _ _, List.Sublist.refl _, [], [], List.nil_sublist _,
        (List.append_nil _).symm, List.Forall₂.nil,
        fun _ cp hcp => absurd hcp (List.not_mem_nil _)⟩
    · have heq : enterLoop s maxPos day st ((c, price) :: rest) =
          enterLoop s maxPos day
            { enter_position_at_price s st c price day with
              watchlist := (enter_position_at_price s st c price day).watchlist.erase c }
            rest := by
        simp only [enterLoop]
        rw [if_neg hcap]
      obtain ⟨hwl1, tail, hpos1, htl, htail⟩ := enter_position_positions s st c price day
      obtain ⟨ihlen, ihwl, cs', newPs', ihsub, ihpos, ihF2, ihrem⟩ :=
        enterLoop_spec s maxPos day rest
          { enter_position_at_price s st c price day with
            watchlist := (enter_position_at_price s st c price day).watchlist.erase c }
      have hst2wl :
          ({ enter_position_at_price s st c price day with
            watchlist := (enter_position_at_price s st c price day).watchlist.erase c }
            : EngineState).watchlist = st.watchlist.erase c := by
        rw [hwl1]
      have hst2pos :
          ({ enter_position_at_price s st c price day with
            watchlist := (enter_position_at_price s st c price day).watchlist.erase c }
            : EngineState).positions = st.positions ++ tail := hpos1
      rw [heq]
      refine ⟨?_, ?_, ?_⟩
      · refine le_trans ihlen ?_
        have hst2len :
            ({ enter_position_at_price s st c price day with
              watchlist := (enter_position_at_price s st c price day).watchlist.erase c }
              : EngineState).positions.length ≤ maxPos := by
          rw [hst2pos, List.length_append]
          omega
        calc max ({ enter_position_at_price s st c price day with
              watchlist := (enter_position_at_price s st c price day).watchlist.erase c }
              : EngineState).positions.length maxPos = maxPos := Nat.max_eq_right hst2len
          _ ≤ max st.positions.length maxPos := le_max_right _ _
      · refine ihwl.trans ?_
        rw [hst2wl]
        exact List.erase_sublist _ _
      · cases tail with
        | nil =>
          refine ⟨cs', newPs', List.Sublist.cons _ ihsub, ?_, ihF2, ?_⟩
          · rw [ihpos, hst2pos]
            simp
          · intro hnd cp hcp
            exact ihrem (by rw [hst2wl]; exact hnd.erase _) cp hcp
        | cons p0 tail' =>
          have htail' : tail' = [] := by
            cases tail' with
            | nil => rfl
            | cons q qs => simp at htl
          subst htail'
          obtain ⟨hps, hppr, hpd⟩ := htail p0 (List.mem_singleton_self _)
          refine ⟨(c, price) :: cs', p0 :: newPs', List.Sublist.cons₂ _ ihsub, ?_, ?_, ?_⟩
          · rw [ihpos, hst2pos, List.append_assoc]
            simp
          · exact List.Forall₂.cons ⟨hps, hppr, hpd⟩ ihF2
          · intro hnd cp hcp
            have hnd2 :
                ({ enter_position_at_price s st c price day with
                  watchlist := (enter_position_at_price s st c price day).watchlist.erase c }
                  : EngineState).watchlist.Nodup := by
              rw [hst2wl]
              exact hnd.erase _
            rcases List.mem_cons.mp hcp with hcp | hcp
            · subst hcp
              intro hmem
              have hmem2 := ihwl.subset hmem
              rw [hst2wl] at hmem2
              exact ((List.Nodup.mem_erase_iff hnd).mp hmem2).1 rfl
            · exact ihrem hnd2 cp hcp

theorem collectTriggered_mem (held : List ℕ) (bar : ℕ → Option DayBar) (mult : ℚ)
    (npos maxPos : ℕ) :
    ∀ (wl : List Candidate) (t : ℕ) (cp : Candidate × ℚ),
      cp ∈ collectTriggered held bar mult npos maxPos t wl →
      cp.1 ∈ wl ∧ ∃ b, bar (cp.1).symbol = some b ∧ cp.2 = b.close ∧
        (cp.1).pivotPrice < b.close ∧ (cp.1).avgVolume * mult ≤ b.volume
  | [], t, cp => by
    intro hmem
    simp [collectTriggered] at hmem
  | c :: rest, t, cp => by
    intro hmem
    simp only [collectTriggered] at hmem
    split at hmem
    · obtain ⟨h1, h2⟩ := collectTriggered_mem held bar mult npos maxPos rest t cp hmem
      exact ⟨List.mem_cons_of_mem _ h1, h2⟩
    · split at hmem
      · obtain ⟨h1, h2⟩ := collectTriggered_mem held bar mult npos maxPos rest t cp hmem
        exact ⟨List.mem_cons_of_mem _ h1, h2⟩
      · next b hbar =>
        split at hmem
        · next hcond =>
          split at hmem
          · have hcp2 : cp = (c, b.close) := List.mem_singleton.mp hmem
            subst hcp2
            exact ⟨List.mem_cons_self c rest, b, hbar, rfl, hcond.1, hcond.2⟩
          · rcases List.mem_cons.mp hmem with hcp2 | hcp2
            · subst hcp2
              exact ⟨List.mem_cons_self c rest, b, hbar, rfl, hcond.1, hcond.2⟩
            · obtain ⟨h1, h2⟩ :=
                collectTriggered_mem held bar mult npos maxPos rest (t + 1) cp hcp2
              exact ⟨List.mem_cons_of_mem _ h1, h2⟩
        · obtain ⟨h1, h2⟩ := collectTriggered_mem held bar mult npos maxPos rest t cp hmem
          exact ⟨List.mem_cons_of_mem _ h1, h2⟩

/-- C6 amended: on every day the breakout check runs, the open-position
count never exceeds `max_positions`, and the watchlist only shrinks (the
final watchlist is a sublist of the starting one).  The candidates actually
entered form a sublist of the score-sorted triggered list computed from the
real watchlist and the day bars — so they are entered in descending
`vcp_score` order, each is a genuine watchlist entry whose breakout
condition (close above pivot, volume at least `avg_volume × mult`) holds at
its actual bar, and its recorded price is that triggering close.  Each
opened position carries the triggering candidate symbol, the triggering
close and the current date, and every entered candidate is removed from the
watchlist.  A qualifying candidate yields a position only when its sizing
at the cash available at its turn is positive — with zero cash a
qualifying entry opens no position (and is still dropped from the
watchlist), which is what the counterexample shows. -/
theorem check_breakouts_spec (s : Settings) (maxPos : ℕ) (bar : ℕ → Option DayBar)
    (day : ℤ) (st : EngineState) (hcap : st.positions.length ≤ maxPos) :
    (check_breakouts s maxPos bar day st).positions.length ≤ maxPos ∧
    (check_breakouts s maxPos bar day st).watchlist.Sublist st.watchlist ∧
    ∃ cs newPs,
      cs.Sublist ((collectTriggered (st.positions.map fun p => p.symbol) bar
        s.breakoutVolumeMult st.positions.length maxPos 0 st.watchlist).insertionSort
        (fun a b => (b.1).vcpScore ≤ (a.1).vcpScore)) ∧
      List.Pairwise (fun (a b : Candidate × ℚ) => (b.1).vcpScore ≤ (a.1).vcpScore) cs ∧
      (∀ cp ∈ cs, (cp.1) ∈ st.watchlist ∧ ∃ b, bar ((cp.1)).symbol = some b ∧
        cp.2 = b.close ∧ (cp.1).pivotPrice < b.close ∧
        (cp.1).avgVolume * s.breakoutVolumeMult ≤ b.volume) ∧
      (check_breakouts s maxPos bar day st).positions = st.positions ++ newPs ∧
      List.Forall₂ (fun (p : BtPosition) (cp : Candidate × ℚ) =>
        p.symbol = (cp.1).symbol ∧ p.entryPrice = cp.2 ∧ p.entryDate = day) newPs cs ∧
      (st.watchlist.Nodup →
        ∀ cp ∈ cs, (cp.1) ∉ (check_breakouts s maxPos bar day st).watchlist) := by
  by_cases htop : maxPos ≤ st.positions.length
  · have heq : check_breakouts s maxPos bar day st = st := by
      unfold check_breakouts
      rw [if_pos htop]
    rw [heq]
    exact ⟨hcap, List.Sublist.refl _, [], [], List.nil_sublist _, List.Pairwise.nil,
      fun cp hcp => absurd hcp (List.not_mem_nil _),
      (List.append_nil _).symm, List.Forall₂.nil,
      fun _ cp hcp => absurd hcp (List.not_mem_nil _)⟩
  · have heq : check_breakouts s maxPos bar day st =
        enterLoop s maxPos day st
          ((collectTriggered (st.positions.map fun p => p.symbol) bar s.breakoutVolumeMult
            st.positions.length maxPos 0 st.watchlist).insertionSort
            (fun a b => (b.1).vcpScore ≤ (a.1).vcpScore)) := by
      unfold check_breakouts
      rw [if_neg htop]
    obtain ⟨hlen, hwl, cs, newPs, hsub, hpos, hF2, hrem⟩ := enterLoop_spec s maxPos day
      ((collectTriggered (st.positions.map fun p => p.symbol) bar s.breakoutVolumeMult
        st.positions.length maxPos 0 st.watchlist).insertionSort
        (fun a b => (b.1).vcpScore ≤ (a.1).vcpScore)) st
    have hsorted : List.Pairwise (fun (a b : Candidate × ℚ) => (b.1).vcpScore ≤ (a.1).vcpScore)
        ((collectTriggered (st.positions.map fun p => p.symbol) bar s.breakoutVolumeMult
          st.positions.length maxPos 0 st.watchlist).insertionSort
          (fun a b => (b.1).vcpScore ≤ (a.1).vcpScore)) := by
      haveI : IsTotal (Candidate × ℚ) (fun a b => (b.1).vcpScore ≤ (a.1).vcpScore) :=
        ⟨fun a b => le_total (b.1).vcpScore (a.1).vcpScore⟩
      haveI : IsTrans (Candidate × ℚ) (fun a b => (b.1).vcpScore ≤ (a.1).vcpScore) :=
        ⟨fun _ _ _ hab hbc => le_trans hbc hab⟩
      exact List.sorted_insertionSort _ _
    rw [heq]
    refine ⟨le_trans hlen (le_of_eq (Nat.max_eq_right hcap)), hwl, cs, newPs, hsub,
      List.Pairwise.sublist hsub hsorted, ?_, hpos, hF2, hrem⟩
    intro cp hcp
    have hmemSort := hsub.subset hcp
    have hmemTrig : cp ∈ collectTriggered (st.positions.map fun p => p.symbol) bar
        s.breakoutVolumeMult st.positions.length maxPos 0 st.watchlist :=
      (List.perm_insertionSort _ _).mem_iff.mp hmemSort
    exact collectTriggered_mem (st.positions.map fun p => p.symbol) bar s.breakoutVolumeMult
      st.positions.length maxPos st.watchlist 0 cp hmemTrig

/-- C6 counterexample: a watchlist entry whose breakout condition holds
(close 10.5 above pivot 10, volume 200000 at least 1.3 × 100000), with the
position cap far from binding (0 of 5 slots used), is nevertheless not
entered as a position because the engine has zero cash — and it is even
removed from the watchlist. -/
theorem check_breakouts_cex :
    (check_breakouts defaultSettings 5 cexBarBreak 0 cexStateB).positions = [] ∧
    cexBarBreak cexCandB.symbol = some cexBarB0 ∧
    cexCandB.pivotPrice < cexBarB0.close ∧
    cexCandB.avgVolume * defaultSettings.breakoutVolumeMult ≤ cexBarB0.volume ∧
    cexStateB.positions.length < 5 ∧
    cexStateB.watchlist = [cexCandB] ∧
    (check_breakouts defaultSettings 5 cexBarBreak 0 cexStateB).watchlist = [] := by
  refine ⟨?_, ?_, ?_, ?_, ?_, ?_, ?_⟩
  · with_unfolding_all rfl
  · simp [cexBarBreak, cexCandB]
  · norm_num [cexCandB, cexBarB0]
  · norm_num [cexCandB, cexBarB0, defaultSettings]
  · decide
  · rfl
  · simp only [check_breakouts, collectTriggered, enterLoop, enter_position_at_price, btSizing,
      cexStateB, cexCandB, cexBarBreak, cexBarB0, defaultSettings, ratTrunc]
    norm_num [List.insertionSort, List.orderedInsert, List.erase]
    simp only [enterLoop, enter_position_at_price, btSizing, ratTrunc]
    norm_num [List.erase]

/-- Witness for the amended C6 claim at a concrete funded state: one
qualifying candidate, cash 100000, empty book. -/
theorem check_breakouts_spec_witness :
    (check_breakouts defaultSettings 5 cexBarBreak 0
      { cash := 100000, positions := [], watchlist := [cexCandB] }).positions.length ≤ 5 ∧
    (check_breakouts defaultSettings 5 cexBarBreak 0
      { cash := 100000, positions := [], watchlist := [cexCandB] }).watchlist.Sublist
      ({ cash := 100000, positions := [], watchlist := [cexCandB] } : EngineState).watchlist ∧
    ∃ cs newPs,
      cs.Sublist ((collectTriggered
        (({ cash := 100000, positions := [], watchlist := [cexCandB] }
          : EngineState).positions.map fun p => p.symbol) cexBarBreak
        defaultSettings.breakoutVolumeMult
        ({ cash := 100000, positions := [], watchlist := [cexCandB] }
          : EngineState).positions.length 5 0
        ({ cash := 100000, positions := [], watchlist := [cexCandB] }
          : EngineState).watchlist).insertionSort
        (fun a b => (b.1).vcpScore ≤ (a.1).vcpScore)) ∧
      List.Pairwise (fun (a b : Candidate × ℚ) => (b.1).vcpScore ≤ (a.1).vcpScore) cs ∧
      (∀ cp ∈ cs, (cp.1) ∈ ({ cash := 100000, positions := [], watchlist := [cexCandB] }
          : EngineState).watchlist ∧ ∃ b, cexBarBreak ((cp.1)).symbol = some b ∧
        cp.2 = b.close ∧ (cp.1).pivotPrice < b.close ∧
        (cp.1).avgVolume * defaultSettings.breakoutVolumeMult ≤ b.volume) ∧
      (check_breakouts defaultSettings 5 cexBarBreak 0
        { cash := 100000, positions := [], watchlist := [cexCandB] }).positions =
        ({ cash := 100000, positions := [], watchlist := [cexCandB] } : EngineState).positions ++
          newPs ∧
      List.Forall₂ (fun (p : BtPosition) (cp : Candidate × ℚ) =>
        p.symbol = (cp.1).symbol ∧ p.entryPrice = cp.2 ∧ p.entryDate = 0) newPs cs ∧
      (({ cash := 100000, positions := [], watchlist := [cexCandB] } : EngineState).watchlist.Nodup →
        ∀ cp ∈ cs, (cp.1) ∉ (check_breakouts defaultSettings 5 cexBarBreak 0
          { cash := 100000, positions := [], watchlist := [cexCandB] }).watchlist) :=
  check_breakouts_spec defaultSettings 5 cexBarBreak 0
    { cash := 100000, positions := [], watchlist := [cexCandB] } (by decide)

end VcpScreener
